import Mathlib

/-!
Verification of the CProcessSpawnSync component of swift-llbuild2.

The development shallowly embeds the C sources
`Sources/CProcessSpawnSync/spawner.c` and
`Sources/CProcessSpawnSync/internal-helpers.h`.  Syscall results that the
code consumes (pipe, fcntl, fork, read, waitpid, signal, getdents64,
pthread_sigmask) are supplied by explicit oracle values, and the C control
flow is translated statement by statement.  Machine integers are modelled
as `Int`/`Nat`; the only place where fixed-width behaviour matters is the
`(signed char)` cast inside the glibc `WIFSIGNALED` macro, which is
modelled explicitly.
-/

/-! ## Error kinds and the error struct (include/ps-api.h)

`ps_error` additionally carries `pse_file`/`pse_line` debug fields (a
static string and a source line); they identify the failure site only and
are dropped from the embedding. -/

def PS_ERROR_KIND_EXECVE : Nat := 1
def PS_ERROR_KIND_PIPE : Nat := 2
def PS_ERROR_KIND_FCNTL : Nat := 3
def PS_ERROR_KIND_SIGNAL : Nat := 4
def PS_ERROR_KIND_SIGPROC_MASK : Nat := 5
def PS_ERROR_KIND_CHDIR : Nat := 6
def PS_ERROR_KIND_SETSID : Nat := 7
def PS_ERROR_KIND_DUP2 : Nat := 8
def PS_ERROR_KIND_READ_FROM_CHILD : Nat := 9
def PS_ERROR_KIND_DUP : Nat := 10
def PS_ERROR_KIND_SIGMASK_THREAD : Nat := 11
def PS_ERROR_KIND_FAILED_CHILD_WAITPID : Nat := 12

structure PsError where
  pse_kind : Nat
  pse_code : Nat
  pse_extra_info : Int
deriving DecidableEq, Repr

/-! Linux errno and signal numbers used by the sources. -/

def EINTR : Nat := 4
def EINVAL : Nat := 22

/-! ## Exit-status decoding (spawner.c, ps_convert_exit_status)

The function is compiled on Linux against the glibc wait-status macros:

  WIFEXITED(s)   = ((s & 0x7f) == 0)
  WEXITSTATUS(s) = ((s & 0xff00) >> 8)
  WIFSIGNALED(s) = (((signed char) (((s & 0x7f) + 1) >> 1)) > 0)
  WTERMSIG(s)    = (s & 0x7f)

Bitwise AND of a (possibly negative) `int` with `2^k - 1` is `emod 2^k`;
the `(signed char)` cast reinterprets the low byte as a value in
[-128, 127], and `>> 1` on it is an arithmetic shift, i.e. floor division
by two (`Int.fdiv`). -/

def signed_char (x : Int) : Int :=
  let m := x.emod 256
  if m < 128 then m else m - 256

def wIfExited (s : Int) : Bool := s.emod 128 == 0

def wExitStatus (s : Int) : Int := (s.emod 65536) / 256

def wIfSignaled (s : Int) : Bool :=
  decide (0 < Int.fdiv (signed_char (s.emod 128 + 1)) 2)

def wTermSig (s : Int) : Int := s.emod 128

def ps_convert_exit_status (in_status : Int) : Bool × Bool × Int :=
  if wIfExited in_status then
    (true, true, wExitStatus in_status)
  else if wIfSignaled in_status then
    (true, false, wTermSig in_status)
  else
    (false, false, -1)

/-! ## FD enumerator (internal-helpers.h) -/

/-- `positive_int_parse` from internal-helpers.h, on the bytes of a
directory-entry name.  The running value is multiplied by ten before the
digit test, exactly as in the C; a non-digit character yields -1. -/
def positive_int_parse_go (out : Int) : List Char → Int
  | [] => out
  | c :: rest =>
    let out10 := out * 10
    if '0' ≤ c ∧ c ≤ '9' then
      positive_int_parse_go (out10 + ((c.toNat : Int) - ('0'.toNat : Int))) rest
    else
      -1

def positive_int_parse (str : List Char) : Int :=
  positive_int_parse_go 0 str

/-- One directory-read result inside the getdents64 loop of
`highest_possibly_open_fd_dir_syscall`: either a non-empty batch of entry
names (`bytes_read > 0`) or a failed read (`bytes_read < 0`, with the
errno the syscall set).  An exhausted event list is end-of-directory
(`bytes_read == 0`). -/
inductive DirEvent where
  | chunk (entries : List (List Char))
  | rdfail (errno : Nat)
deriving DecidableEq, Repr

/-- The per-entry body: skip names beginning with a dot, otherwise parse
and keep the maximum.  A parse failure (-1) can never exceed the running
maximum, which starts at 0. -/
def scanEntry (acc : Int) (name : List Char) : Int :=
  if name.headD (Char.ofNat 0) ≠ '.' then
    if positive_int_parse name > acc then positive_int_parse name else acc
  else
    acc

def scanChunk (acc : Int) (entries : List (List Char)) : Int :=
  entries.foldl scanEntry acc

/-- The `while ((bytes_read = getdents64(...)) > 0)` loop.  A failed read
makes the loop condition false, so the loop exits and falls through to the
`error:` label, which closes the directory fd and returns the running
maximum; the `if (bytes_read < 0)` body inside the loop (the EINTR
`continue` and the `highest_fd_so_far = -1` assignment) is unreachable
because the loop condition already filters negative results. -/
def hpofdLoop (acc : Int) : List DirEvent → Int
  | [] => acc
  | .chunk entries :: rest => hpofdLoop (scanChunk acc entries) rest
  | .rdfail _ :: _ => acc

/-- `highest_possibly_open_fd_dir_syscall`: -1 when the initial `open`
fails, otherwise the getdents64 loop starting from 0. -/
def highest_possibly_open_fd_dir_syscall (openOk : Bool)
    (events : List DirEvent) : Int :=
  if openOk then hpofdLoop 0 events else -1

/-! ## Signal constants (Linux numbering, as compiled on Linux)

`PS_SIG_MAX` is 32: the `#if __apple__` test in spawner.c uses a
misspelled macro (the real one is `__APPLE__`), so the `#else` branch is
taken everywhere. -/

def PS_SIG_MAX : Nat := 32
def SIGABRT : Nat := 6
def SIGBUS : Nat := 7
def SIGFPE : Nat := 8
def SIGILL : Nat := 4
def SIGKILL : Nat := 9
def SIGSEGV : Nat := 11
def SIGSTOP : Nat := 19
def SIGSYS : Nat := 31
def SIGTRAP : Nat := 5

/-! ## Child signal-disposition reset (spawner.c lines 81-97)

The `for (int signo = 1; signo < PS_SIG_MAX; signo++)` loop is embedded as
a fold over `List.range' 1 (PS_SIG_MAX - 1) = [1, ..., 31]`.  The oracle
`sigRes signo` is the outcome of `signal(signo, SIG_DFL)`: `none` for
success, `some e` when it returns `SIG_ERR` with errno `e`.  Breaking out
of the loop on EINVAL and completing the loop both continue child setup
without an error, so both are `none` here. -/

def signal_reset_go (sigRes : Nat → Option Nat) : List Nat → Option PsError
  | [] => none
  | signo :: rest =>
    if signo = SIGKILL ∨ signo = SIGSTOP then
      signal_reset_go sigRes rest
    else
      match sigRes signo with
      | none => signal_reset_go sigRes rest
      | some e =>
        if e = EINVAL then none
        else some ⟨PS_ERROR_KIND_SIGNAL, e, (signo : Int)⟩

def signal_reset_loop (sigRes : Nat → Option Nat) : Option PsError :=
  signal_reset_go sigRes (List.range' 1 (PS_SIG_MAX - 1))

/-! ## Signal mask helper (internal-helpers.h lines 127-143)

`sigset_t` is modelled as a `Finset Nat` over the Linux signal universe
[1, 64].  `sigfillset` then the nine `sigdelset` calls build the mask;
`pthread_sigmask(SIG_BLOCK, &mask, old_mask)` unions the mask into the
current thread mask and stores the prior mask.  The oracle `maskRes` is
that call's return value (`none` = 0 = success, `some e` = its nonzero
error number); `sigfillset`/`sigdelset` cannot fail on these fixed valid
signal numbers, so their contribution to `r` is 0. -/

def sigfillset_set : Finset Nat := Finset.Icc 1 64

def seriously_wrong_mask : Finset Nat :=
  (((((((((sigfillset_set.erase SIGABRT).erase SIGBUS).erase
      SIGFPE).erase SIGILL).erase SIGKILL).erase SIGSEGV).erase
      SIGSTOP).erase SIGSYS).erase SIGTRAP)

def block_everything_but_something_went_seriously_wrong_signals
    (cur : Finset Nat) (maskRes : Option Nat) :
    Nat × Finset Nat × Option (Finset Nat) :=
  match maskRes with
  | none => (0, cur ∪ seriously_wrong_mask, some cur)
  | some e => (e, cur, none)

/-! ## Child fd remapping (spawner.c lines 115-154)

The kernel fd table is an association list from descriptor numbers to
entries; an entry records the open file description the descriptor
refers to (identified by a number) and its close-on-exec flag.  A
descriptor absent from the list is closed.

`fcntl(fd, F_DUPFD_CLOEXEC, minfd)` duplicates `fd` onto the lowest
free descriptor ≥ `minfd` with close-on-exec set, failing (EBADF) when
`fd` is closed.  `dup2(src, dst)` makes `dst` refer to `src`'s open file
description with close-on-exec cleared, failing when `src` is closed.
`close(fd)` removes the descriptor. -/

structure FdEntry where
  ofd : Nat
  cloexec : Bool
deriving DecidableEq, Repr

abbrev FdTable : Type := List (Nat × FdEntry)

def fdLookup (t : FdTable) (fd : Nat) : Option FdEntry :=
  match List.find? (fun p => p.1 == fd) t with
  | some p => some p.2
  | none => none

def fdSet (t : FdTable) (fd : Nat) (e : FdEntry) : FdTable :=
  (fd, e) :: List.filter (fun p => p.1 != fd) t

def fdClose (t : FdTable) (fd : Nat) : FdTable :=
  List.filter (fun p => p.1 != fd) t

def maxFd (t : FdTable) : Nat :=
  List.foldr (fun (p : Nat × FdEntry) m => max p.1 m) 0 t

/-- Search upward from `n` for a free descriptor; `maxFd t + 1` steps
always suffice. -/
def freeFrom (t : FdTable) : Nat → Nat → Nat
  | 0, n => n
  | fuel + 1, n => if fdLookup t n = none then n else freeFrom t fuel (n + 1)

def fDupFdCloexec (t : FdTable) (fd minfd : Nat) : Option (Nat × FdTable) :=
  match fdLookup t fd with
  | none => none
  | some e =>
    let d := freeFrom t (maxFd t + 1) minfd
    some (d, fdSet t d { ofd := e.ofd, cloexec := true })

def dup2 (t : FdTable) (src dst : Nat) : Option FdTable :=
  match fdLookup t src with
  | none => none
  | some e =>
    if src = dst then some t
    else some (fdSet t dst { ofd := e.ofd, cloexec := false })

/-- The caller's fd-setup instruction (`ps_fd_setup` in ps-api.h). -/
inductive ps_fd_setup where
  | mapFd (parent_fd : Nat)
  | closeFd
deriving DecidableEq, Repr

/-- Child-side failures of the remap; `precondTrap` is `ps_precondition`
firing (scratch inconsistent with the instructions, or a duplicated fd
not above its slot). -/
inductive SetupErr where
  | dupFailed (child_fd : Nat)
  | dup2Failed (child_fd : Nat)
  | precondTrap
deriving DecidableEq, Repr

/-- Phase A (first loop, lines 115-133): for slot `i`, duplicate a MapFd
source above `N = psc_fd_setup_count` with close-on-exec and record it in
the scratch array (`some d`; `none` is the C's -1), or record `none` for
CloseFd.  `i` is the running `child_fd` index, used only in the error
report. -/
def phaseA (N : Nat) (t : FdTable) :
    List ps_fd_setup → Nat → Except SetupErr (FdTable × List (Option Nat))
  | [], _ => .ok (t, [])
  | .mapFd p :: rest, i =>
    match fDupFdCloexec t p N with
    | none => .error (.dupFailed i)
    | some (d, t1) =>
      match phaseA N t1 rest (i + 1) with
      | .error er => .error er
      | .ok (t2, s) => .ok (t2, some d :: s)
  | .closeFd :: rest, i =>
    match phaseA N t rest (i + 1) with
    | .error er => .error er
    | .ok (t2, s) => .ok (t2, none :: s)

/-- Phase B (second loop, lines 135-154): dup2 each recorded duplicate
onto its slot (after `ps_precondition(scratch > child_fd)`), or close a
CloseFd slot (after `ps_precondition(scratch == -1)`); `close`'s return
value is ignored. -/
def phaseB (t : FdTable) :
    List ps_fd_setup → List (Option Nat) → Nat → Except SetupErr FdTable
  | [], [], _ => .ok t
  | [], _ :: _, _ => .error .precondTrap
  | _ :: _, [], _ => .error .precondTrap
  | .mapFd _ :: rest, some d :: srest, i =>
    if i < d then
      match dup2 t d i with
      | none => .error (.dup2Failed i)
      | some t1 => phaseB t1 rest srest (i + 1)
    else .error .precondTrap
  | .mapFd _ :: _, none :: _, _ => .error .precondTrap
  | .closeFd :: rest, none :: srest, i =>
    phaseB (fdClose t i) rest srest (i + 1)
  | .closeFd :: _, some _ :: _, _ => .error .precondTrap

/-- The two-phase remap of `setup_and_execve_child` applied to the fd
table `t` the child inherits. -/
def setupFds (t : FdTable) (instrs : List ps_fd_setup) :
    Except SetupErr FdTable :=
  match phaseA instrs.length t instrs 0 with
  | .error er => .error er
  | .ok (tA, scratch) => phaseB tA instrs scratch 0

/-! ## Parent side of ps_spawn_process (spawner.c lines 203-353)

The parent-side control flow is embedded with its syscall outcomes
supplied by a `SpawnOracle`.  The child's behaviour reaches the parent
only through the error pipe, so it is summarised by the `readEvents`
list: what each `read(error_pid_fd[0], ...)` call yields.  `out_error`
is `Option PsError`: `none` is a NULL pointer, `some e` a pointer to a
struct currently holding `e`; every store through it in the C is guarded
by `if (out_error)`, which `writeOut` reproduces.

On every path that can reach the `error_cleanup` waitpid loop with
`pid > 0`, the local variable `err` holds 0 (from
`pthread_mutex_unlock`) or a positive errno (from `pthread_sigmask`),
never -1; the embedding threads that value (`errVal`) explicitly, so the
source's `else if (err == -1)` branch is modelled faithfully rather than
assumed dead.  `ps_assert` is a no-op in release builds (NDEBUG) and is
modelled as such; `ps_precondition` always traps. -/

inductive ReadEvent where
  | eof
  | errStruct (e : PsError)
  | rdfail (errno : Nat)
deriving DecidableEq, Repr

inductive WaitEvent where
  | wok
  | wfail (errno : Nat)
deriving DecidableEq, Repr

inductive SpawnResult where
  | ret (pid : Int)
  | trap
  | diverge
deriving DecidableEq, Repr

structure SpawnOracle where
  pipeOk : Bool
  pipeErrno : Nat
  fcntl0Ok : Bool
  fcntl0Errno : Nat
  fcntl1Ok : Bool
  fcntl1Errno : Nat
  blockOk : Bool
  blockErrno : Nat
  forkPid : Int
  forkErrno : Nat
  restoreOk : Bool
  restoreErrno : Nat
  readEvents : List ReadEvent
  waitEvents : List WaitEvent
deriving DecidableEq, Repr

/-- `if (out_error) { *out_error = error; }` -/
def writeOut (out : Option PsError) (e : PsError) : Option PsError :=
  out.map (fun _ => e)

inductive WaitRes where
  | done (out : Option PsError)
  | wtrap
  | wdiverge
deriving DecidableEq, Repr

/-- The `while (true)` waitpid loop at `error_cleanup`.  A successful
waitpid breaks.  On a failed waitpid the source tests the STALE `err`
variable, not the waitpid return: only when `err == -1` does the intended
EINTR retry (or, under NDEBUG, the FAILED_CHILD_WAITPID error) run;
otherwise `ps_precondition(0)` traps.  An exhausted event list models a
waitpid that blocks forever. -/
def waitLoop (errVal : Int) (out : Option PsError) :
    List WaitEvent → WaitRes
  | [] => .wdiverge
  | .wok :: _ => .done out
  | .wfail en :: rest =>
    if errVal = -1 then
      if en = EINTR then waitLoop errVal out rest
      else .done (writeOut out ⟨PS_ERROR_KIND_FAILED_CHILD_WAITPID, en, 0⟩)
    else .wtrap

/-- The final consistency check
`ps_precondition((!out_error) || (out_error->pse_kind != 0));` followed by
`return 0;`. -/
def finalCheck (out : Option PsError) : SpawnResult × Option PsError :=
  match out with
  | none => (.ret 0, none)
  | some e => if e.pse_kind ≠ 0 then (.ret 0, some e) else (.trap, some e)

/-- The `error_cleanup` label: reap the child when a pid was produced,
then run the final consistency check and return 0. -/
def errorCleanup (pid : Int) (errVal : Int) (waitEvents : List WaitEvent)
    (out : Option PsError) : SpawnResult × Option PsError :=
  if 0 < pid then
    match waitLoop errVal out waitEvents with
    | .wdiverge => (.diverge, out)
    | .wtrap => (.trap, out)
    | .done outAfter => finalCheck outAfter
  else finalCheck out

/-- The parent's pipe-read loop.  EOF returns success; a full struct is
the child's error report; a FAILED read falls through the
`if/else if` chain (read_res < 0 matches neither branch) and the loop
re-issues the read whatever errno was — the `if (errno == EINTR)` test
sits after an unconditional `goto error_cleanup` and is unreachable.  An
exhausted event list models a read that blocks forever. -/
def readLoopRun : List ReadEvent → Option (Option PsError)
  | [] => none
  | .eof :: _ => some none
  | .errStruct e :: _ => some (some e)
  | .rdfail _ :: rest => readLoopRun rest

def ps_spawn_process (o : SpawnOracle) (out_error : Option PsError) :
    SpawnResult × Option PsError :=
  if ¬o.pipeOk then
    errorCleanup (-1) (-1) o.waitEvents
      (writeOut out_error ⟨PS_ERROR_KIND_PIPE, o.pipeErrno, 0⟩)
  else if ¬o.fcntl0Ok then
    errorCleanup (-1) (-1) o.waitEvents
      (writeOut out_error ⟨PS_ERROR_KIND_FCNTL, o.fcntl0Errno, 0⟩)
  else if ¬o.fcntl1Ok then
    errorCleanup (-1) (-1) o.waitEvents
      (writeOut out_error ⟨PS_ERROR_KIND_FCNTL, o.fcntl1Errno, 0⟩)
  else if ¬o.blockOk then
    errorCleanup (-1) (o.blockErrno : Int) o.waitEvents
      (writeOut out_error ⟨PS_ERROR_KIND_SIGMASK_THREAD, o.blockErrno, 0⟩)
  else if ¬o.restoreOk then
    errorCleanup o.forkPid (o.restoreErrno : Int) o.waitEvents
      (writeOut out_error ⟨PS_ERROR_KIND_SIGMASK_THREAD, o.restoreErrno, 0⟩)
  else if 0 < o.forkPid then
    match readLoopRun o.readEvents with
    | none => (.diverge, out_error)
    | some none => (.ret o.forkPid, out_error)
    | some (some childError) =>
      errorCleanup o.forkPid 0 o.waitEvents (writeOut out_error childError)
  else
    errorCleanup 0 0 o.waitEvents
      (writeOut out_error ⟨PS_ERROR_KIND_FCNTL, o.forkErrno, 0⟩)

/-! ## Concrete fd tables, instruction lists and oracles used by the
closed theorems below -/

def c1_success_oracle : SpawnOracle :=
  { pipeOk := true, pipeErrno := 0, fcntl0Ok := true, fcntl0Errno := 0,
    fcntl1Ok := true, fcntl1Errno := 0, blockOk := true, blockErrno := 0,
    forkPid := 42, forkErrno := 0, restoreOk := true, restoreErrno := 0,
    readEvents := [.eof], waitEvents := [.wok] }

def c1_fail_oracle : SpawnOracle :=
  { c1_success_oracle with pipeOk := false, pipeErrno := 24 }

def c5_trap_oracle : SpawnOracle :=
  { pipeOk := true, pipeErrno := 0, fcntl0Ok := true, fcntl0Errno := 0,
    fcntl1Ok := true, fcntl1Errno := 0, blockOk := true, blockErrno := 0,
    forkPid := 7, forkErrno := 0, restoreOk := true, restoreErrno := 0,
    readEvents := [.errStruct ⟨PS_ERROR_KIND_EXECVE, 2, 0⟩],
    waitEvents := [.wfail EINTR] }

def c5_read_oracle : SpawnOracle :=
  { c5_trap_oracle with readEvents := [.rdfail 9], waitEvents := [.wok] }

def c10_oracle : SpawnOracle :=
  { pipeOk := true, pipeErrno := 0, fcntl0Ok := true, fcntl0Errno := 0,
    fcntl1Ok := true, fcntl1Errno := 0, blockOk := true, blockErrno := 0,
    forkPid := -1, forkErrno := 11, restoreOk := true, restoreErrno := 0,
    readEvents := [], waitEvents := [.wok] }

/-- Parent fd table for the C2 witness: fds 0, 1, 2 open on distinct
open file descriptions. -/
def swapTable : FdTable :=
  [(0, ⟨100, false⟩), (1, ⟨101, false⟩), (2, ⟨102, false⟩)]

/-- The claim's permutation example: keep fd 0, swap fds 1 and 2. -/
def swapInstrs : List ps_fd_setup := [.mapFd 0, .mapFd 2, .mapFd 1]

/-- Child fd table the C4 counterexample starts from: the error pipe
write end (open file description 201, close-on-exec set by the parent)
lives at fd 1, inside the low range [0, 2) of the instructions. -/
def pipeTable : FdTable := [(1, ⟨201, true⟩)]

/-! ## Theorems -/

/-- C3: `ps_convert_exit_status` is total: `has_exited` is true exactly
when the status decodes as a normal exit or a signal termination; those
two decodings are mutually exclusive; a normal exit yields
`is_exit_code = true` with the exit code, a signal termination yields
`is_exit_code = false` with the signal number, and otherwise the outputs
are `(false, false, -1)`. -/
theorem c3_ps_convert_exit_status_total (s : Int) :
    ((ps_convert_exit_status s).1 = (wIfExited s || wIfSignaled s))
    ∧ ¬(wIfExited s = true ∧ wIfSignaled s = true)
    ∧ (wIfExited s = true →
        (ps_convert_exit_status s).2.1 = true
        ∧ (ps_convert_exit_status s).2.2 = wExitStatus s)
    ∧ (wIfSignaled s = true →
        (ps_convert_exit_status s).2.1 = false
        ∧ (ps_convert_exit_status s).2.2 = wTermSig s)
    ∧ (wIfExited s = false → wIfSignaled s = false →
        (ps_convert_exit_status s).1 = false
        ∧ (ps_convert_exit_status s).2.1 = false
        ∧ (ps_convert_exit_status s).2.2 = -1) := by
  have hexcl : ¬(wIfExited s = true ∧ wIfSignaled s = true) := by
    rintro ⟨h1, h2⟩
    have hm : s.emod 128 = 0 := by
      simp [wIfExited] at h1
      exact h1
    simp only [wIfSignaled, hm] at h2
    exact absurd h2 (by decide)
  refine ⟨?_, hexcl, ?_, ?_, ?_⟩
  · cases h1 : wIfExited s <;> cases h2 : wIfSignaled s <;>
      simp [ps_convert_exit_status, h1, h2]
  · intro h1
    simp [ps_convert_exit_status, h1]
  · intro h2
    have h1 : wIfExited s = false := by
      cases h1 : wIfExited s
      · rfl
      · exact absurd ⟨h1, h2⟩ hexcl
    simp [ps_convert_exit_status, h1, h2]
  · intro h1 h2
    simp [ps_convert_exit_status, h1, h2]

/-- C3 witness: status 1280 = 5 << 8 decodes as a normal exit with code 5. -/
theorem c3_witness :
    wIfExited 1280 = true
    ∧ (ps_convert_exit_status 1280).2.1 = true
    ∧ (ps_convert_exit_status 1280).2.2 = wExitStatus 1280 := by
  refine ⟨by decide, ?_, ?_⟩
  · exact ((c3_ps_convert_exit_status_total 1280).2.2.1 (by decide)).1
  · exact ((c3_ps_convert_exit_status_total 1280).2.2.1 (by decide)).2

/-- C6 counterexample: a directory batch containing the names "5" and "x".
The name "x" does not parse (`positive_int_parse` yields -1), yet the
enumerator returns 5, not the -1 sentinel: the unparsable entry is merely
skipped, because -1 never beats the non-negative running maximum. -/
theorem c6_counterexample :
    positive_int_parse ['x'] = -1
    ∧ highest_possibly_open_fd_dir_syscall true [.chunk [['5'], ['x']]] = 5
    ∧ (5 : Int) ≠ -1 := by
  decide

theorem scanEntry_ge (acc : Int) (name : List Char) : acc ≤ scanEntry acc name := by
  unfold scanEntry
  split
  · split <;> omega
  · omega

theorem scanChunk_ge (entries : List (List Char)) :
    ∀ acc : Int, acc ≤ scanChunk acc entries := by
  induction entries with
  | nil => intro acc; simp [scanChunk]
  | cons name rest ih =>
    intro acc
    calc acc ≤ scanEntry acc name := scanEntry_ge acc name
    _ ≤ scanChunk (scanEntry acc name) rest := ih (scanEntry acc name)
    _ = scanChunk acc (name :: rest) := by simp [scanChunk]

theorem hpofdLoop_ge (events : List DirEvent) :
    ∀ acc : Int, acc ≤ hpofdLoop acc events := by
  induction events with
  | nil => intro acc; simp [hpofdLoop]
  | cons ev rest ih =>
    intro acc
    cases ev with
    | chunk entries =>
      calc acc ≤ scanChunk acc entries := scanChunk_ge entries acc
      _ ≤ hpofdLoop (scanChunk acc entries) rest := ih _
      _ = hpofdLoop acc (.chunk entries :: rest) := by simp [hpofdLoop]
    | rdfail e => simp [hpofdLoop]

/-- C6 amended: an entry whose name fails to parse is skipped (the -1
parse result never exceeds the running maximum, which stays
non-negative); the -1 sentinel is produced exactly when the initial open
of the fd directory fails. -/
theorem c6_parse_failure_skipped (events : List DirEvent) (acc : Int)
    (name : List Char) :
    (highest_possibly_open_fd_dir_syscall false events = -1)
    ∧ (0 ≤ highest_possibly_open_fd_dir_syscall true events)
    ∧ (0 ≤ acc → positive_int_parse name = -1 → scanEntry acc name = acc) := by
  refine ⟨by simp [highest_possibly_open_fd_dir_syscall], ?_, ?_⟩
  · have := hpofdLoop_ge events 0
    simpa [highest_possibly_open_fd_dir_syscall] using this
  · intro hacc hparse
    unfold scanEntry
    rw [hparse]
    split
    · split
      · omega
      · rfl
    · rfl

/-- C6 amended witness: with the directory entries "5" then "x", scanning
the unparsable "x" from running maximum 5 leaves the maximum at 5. -/
theorem c6_witness :
    (0 : Int) ≤ 5 ∧ positive_int_parse ['x'] = -1
    ∧ scanEntry 5 ['x'] = 5 := by
  refine ⟨by decide, by decide, ?_⟩
  exact (c6_parse_failure_skipped [] 5 ['x']).2.2 (by decide) (by decide)

/-- C7: the EINTR `continue` inside the getdents64 loop is dead code: the
loop condition `> 0` already exits on a failed read.  With a first read
failing with EINTR (errno 4) and a second batch containing the entry "7",
the enumerator returns the running maximum 0; restarting the read, as the
claim describes, would have returned 7. -/
theorem c7_eintr_not_restarted :
    highest_possibly_open_fd_dir_syscall true [.rdfail 4, .chunk [['7']]] = 0
    ∧ highest_possibly_open_fd_dir_syscall true [.chunk [['7']]] = 7 := by
  decide

theorem signal_reset_go_append (sigRes : Nat → Option Nat)
    (l1 l2 : List Nat)
    (h : ∀ k ∈ l1, k ≠ SIGKILL → k ≠ SIGSTOP → sigRes k = none) :
    signal_reset_go sigRes (l1 ++ l2) = signal_reset_go sigRes l2 := by
  induction l1 with
  | nil => rfl
  | cons signo rest ih =>
    have hrest : ∀ k ∈ rest, k ≠ SIGKILL → k ≠ SIGSTOP → sigRes k = none :=
      fun k hk => h k (List.mem_cons_of_mem signo hk)
    by_cases hskip : signo = SIGKILL ∨ signo = SIGSTOP
    · simp only [List.cons_append, signal_reset_go, if_pos hskip]
      exact ih hrest
    · have h1 : signo ≠ SIGKILL := fun hc => hskip (Or.inl hc)
      have h2 : signo ≠ SIGSTOP := fun hc => hskip (Or.inr hc)
      have hres : sigRes signo = none := h signo (List.mem_cons_self signo rest) h1 h2
      simp only [List.cons_append, signal_reset_go, if_neg hskip, hres]
      exact ih hrest

/-- C8: the child resets dispositions for every signal 1 ≤ signo < 32,
skipping SIGKILL and SIGSTOP.  If all those `signal` calls succeed the
loop finishes without error; at the first failing signal the loop breaks
silently when errno is EINVAL, and otherwise produces a
`PS_ERROR_KIND_SIGNAL` error with that errno and the offending signal
number in `pse_extra_info`. -/
theorem c8_signal_reset (sigRes : Nat → Option Nat) :
    ((∀ k, 1 ≤ k → k < PS_SIG_MAX → k ≠ SIGKILL → k ≠ SIGSTOP →
        sigRes k = none) →
      signal_reset_loop sigRes = none)
    ∧ (∀ s e, 1 ≤ s → s < PS_SIG_MAX → s ≠ SIGKILL → s ≠ SIGSTOP →
        (∀ k, 1 ≤ k → k < s → k ≠ SIGKILL → k ≠ SIGSTOP →
          sigRes k = none) →
        sigRes s = some e →
        signal_reset_loop sigRes =
          (if e = EINVAL then none
           else some ⟨PS_ERROR_KIND_SIGNAL, e, (s : Int)⟩)) := by
  constructor
  · intro h
    have : signal_reset_go sigRes (List.range' 1 (PS_SIG_MAX - 1) ++ []) =
        signal_reset_go sigRes [] := by
      apply signal_reset_go_append
      intro k hk
      rw [List.mem_range'_1] at hk
      exact h k hk.1 (by have := hk.2; simp [PS_SIG_MAX] at this ⊢; omega)
    simpa [signal_reset_loop, signal_reset_go] using this
  · intro s e hs1 hs2 hsk hss hprev hres
    have hsplit : List.range' 1 (PS_SIG_MAX - 1) =
        List.range' 1 (s - 1) ++ s :: List.range' (s + 1) (PS_SIG_MAX - 1 - s) := by
      have h1 : List.range' s (PS_SIG_MAX - s) =
          s :: List.range' (s + 1) (PS_SIG_MAX - 1 - s) := by
        have : PS_SIG_MAX - s = (PS_SIG_MAX - 1 - s) + 1 := by
          simp [PS_SIG_MAX] at hs2 ⊢; omega
        rw [this, List.range'_succ]
      have h2 : List.range' 1 (s - 1) ++ List.range' s (PS_SIG_MAX - s) =
          List.range' 1 (PS_SIG_MAX - 1) := by
        have hst : 1 + (s - 1) = s := by omega
        have hlen : (PS_SIG_MAX - s) + (s - 1) = PS_SIG_MAX - 1 := by
          simp [PS_SIG_MAX] at hs2 ⊢; omega
        calc List.range' 1 (s - 1) ++ List.range' s (PS_SIG_MAX - s)
            = List.range' 1 (s - 1) ++ List.range' (1 + 1 * (s - 1)) (PS_SIG_MAX - s) := by
              rw [Nat.one_mul, hst]
          _ = List.range' 1 ((PS_SIG_MAX - s) + (s - 1)) :=
              List.range'_append 1 (s - 1) (PS_SIG_MAX - s) 1
          _ = List.range' 1 (PS_SIG_MAX - 1) := by rw [hlen]
      rw [← h2, h1]
    rw [signal_reset_loop, hsplit]
    rw [signal_reset_go_append sigRes _ _ ?hpre]
    case hpre =>
      intro k hk
      rw [List.mem_range'_1] at hk
      exact hprev k hk.1 (by omega)
    have hskip : ¬(s = SIGKILL ∨ s = SIGSTOP) := by
      rintro (hc | hc)
      · exact hsk hc
      · exact hss hc
    simp only [signal_reset_go, if_neg hskip, hres]

/-- C8 witness: an oracle on which `signal(5, SIG_DFL)` fails with
errno 99 (not EINVAL) and every other call succeeds yields the
`PS_ERROR_KIND_SIGNAL` error carrying signal number 5. -/
theorem c8_witness :
    (1 ≤ 5 ∧ 5 < PS_SIG_MAX ∧ 5 ≠ SIGKILL ∧ 5 ≠ SIGSTOP
      ∧ (∀ k, 1 ≤ k → k < 5 → k ≠ SIGKILL → k ≠ SIGSTOP →
          (fun n => if n = 5 then some 99 else none) k = none)
      ∧ (fun n => if n = 5 then some 99 else none) 5 = some 99)
    ∧ signal_reset_loop (fun n => if n = 5 then some 99 else none) =
        some ⟨PS_ERROR_KIND_SIGNAL, 99, 5⟩ := by
  refine ⟨⟨by decide, by decide, by decide, by decide, by decide, by decide⟩, ?_⟩
  have := (c8_signal_reset (fun n => if n = 5 then some 99 else none)).2
    5 99 (by decide) (by decide) (by decide) (by decide) (by decide) (by decide)
  simpa using this

/-- C9: the helper's mask contains every signal of the modelled universe
[1, 64] except exactly {SIGABRT, SIGBUS, SIGFPE, SIGILL, SIGKILL,
SIGSEGV, SIGSTOP, SIGSYS, SIGTRAP}; on success it applies the mask
thread-wide by unioning it into the current mask (SIG_BLOCK), saves the
prior mask into the caller-supplied slot, and returns 0; it returns the
nonzero error number exactly when `pthread_sigmask` fails. -/
theorem c9_block_helper (cur : Finset Nat) :
    (∀ s, s ∈ seriously_wrong_mask ↔
      (1 ≤ s ∧ s ≤ 64 ∧ s ≠ SIGABRT ∧ s ≠ SIGBUS ∧ s ≠ SIGFPE ∧ s ≠ SIGILL
        ∧ s ≠ SIGKILL ∧ s ≠ SIGSEGV ∧ s ≠ SIGSTOP ∧ s ≠ SIGSYS ∧ s ≠ SIGTRAP))
    ∧ block_everything_but_something_went_seriously_wrong_signals cur none =
        (0, cur ∪ seriously_wrong_mask, some cur)
    ∧ (∀ e, e ≠ 0 →
        (block_everything_but_something_went_seriously_wrong_signals cur
          (some e)).1 ≠ 0)
    ∧ (block_everything_but_something_went_seriously_wrong_signals cur
        none).1 = 0 := by
  refine ⟨?_, rfl, ?_, rfl⟩
  · intro s
    simp only [seriously_wrong_mask, sigfillset_set, Finset.mem_erase,
      Finset.mem_Icc, SIGABRT, SIGBUS, SIGFPE, SIGILL, SIGKILL, SIGSEGV,
      SIGSTOP, SIGSYS, SIGTRAP]
    constructor
    · rintro ⟨h5, h31, h19, h11, h9, h4, h8, h7, h6, h1, h64⟩
      exact ⟨h1, h64, h6, h7, h8, h4, h9, h11, h19, h31, h5⟩
    · rintro ⟨h1, h64, h6, h7, h8, h4, h9, h11, h19, h31, h5⟩
      exact ⟨h5, h31, h19, h11, h9, h4, h8, h7, h6, h1, h64⟩
  · intro e he
    simpa [block_everything_but_something_went_seriously_wrong_signals]
      using he

theorem waitLoop_some (errVal : Int) (x : PsError) :
    ∀ (wes : List WaitEvent) (outAfter : Option PsError),
      waitLoop errVal (some x) wes = .done outAfter →
      ∃ y, outAfter = some y := by
  intro wes
  induction wes with
  | nil => intro outAfter h; simp [waitLoop] at h
  | cons ev rest ih =>
    intro outAfter h
    cases ev with
    | wok =>
      simp [waitLoop] at h
      exact ⟨x, h.symm⟩
    | wfail en =>
      unfold waitLoop at h
      split at h
      · split at h
        · exact ih outAfter h
        · simp only [WaitRes.done.injEq] at h
          exact ⟨_, h.symm⟩
      · simp at h

theorem finalCheck_ret_some (x : PsError) (p : Int) (out : Option PsError)
    (h : finalCheck (some x) = (.ret p, out)) :
    p = 0 ∧ ∃ e, out = some e ∧ e.pse_kind ≠ 0 := by
  have hfc : finalCheck (some x) =
      if x.pse_kind ≠ 0 then ((.ret 0 : SpawnResult), some x)
      else (.trap, some x) := rfl
  rw [hfc] at h
  by_cases hk : x.pse_kind = 0
  · simp [hk] at h
  · simp only [hk, ne_eq, not_false_eq_true, if_true, Prod.mk.injEq,
      SpawnResult.ret.injEq] at h
    exact ⟨h.1.symm, x, h.2.symm, hk⟩

theorem errorCleanup_ret (pid errVal : Int) (wes : List WaitEvent)
    (x : PsError) (p : Int) (out : Option PsError)
    (h : errorCleanup pid errVal wes (some x) = (.ret p, out)) :
    p = 0 ∧ ∃ e, out = some e ∧ e.pse_kind ≠ 0 := by
  unfold errorCleanup at h
  split at h
  · split at h
    · simp at h
    · simp at h
    · rename_i outAfter hwl
      obtain ⟨y, hy⟩ := waitLoop_some errVal x wes outAfter hwl
      subst hy
      exact finalCheck_ret_some y p out h
  · exact finalCheck_ret_some x p out h

/-- C1 amended: with a non-NULL `out_error`, whenever `ps_spawn_process`
returns normally, a nonzero returned pid is positive and leaves
`out_error` exactly as the caller supplied it (the function does not zero
it on success), and a returned pid of 0 means failure with `out_error`
holding a nonzero-kind error. -/
theorem c1_spawn_pid_error (o : SpawnOracle) (e0 : PsError) (p : Int)
    (out : Option PsError)
    (h : ps_spawn_process o (some e0) = (.ret p, out)) :
    (p ≠ 0 → 0 < p ∧ out = some e0)
    ∧ (p = 0 → ∃ e, out = some e ∧ e.pse_kind ≠ 0) := by
  have hc : ∀ (pid errVal : Int) (wes : List WaitEvent) (x : PsError),
      errorCleanup pid errVal wes (some x) = (.ret p, out) →
      (p ≠ 0 → 0 < p ∧ out = some e0)
      ∧ (p = 0 → ∃ e, out = some e ∧ e.pse_kind ≠ 0) := by
    intro pid errVal wes x hce
    obtain ⟨hp0, hex⟩ := errorCleanup_ret pid errVal wes x p out hce
    exact ⟨fun hne => absurd hp0 hne, fun _ => hex⟩
  unfold ps_spawn_process at h
  split at h
  · exact hc _ _ _ _ h
  · split at h
    · exact hc _ _ _ _ h
    · split at h
      · exact hc _ _ _ _ h
      · split at h
        · exact hc _ _ _ _ h
        · split at h
          · exact hc _ _ _ _ h
          · split at h
            · rename_i hfork
              split at h
              · simp at h
              · simp only [Prod.mk.injEq, SpawnResult.ret.injEq] at h
                refine ⟨fun _ => ⟨h.1 ▸ hfork, h.2.symm⟩, fun hp => ?_⟩
                have h1 := h.1
                omega
              · exact hc _ _ _ _ h
            · exact hc _ _ _ _ h

/-- C1 counterexample: a fully successful spawn (pid 42, EOF on the error
pipe) with `out_error` pointing to a struct that already holds kind 3:
the call returns pid 42 > 0 but `out_error` is left untouched, so it is
NOT zeroed on success as the claim states. -/
theorem c1_counterexample :
    ps_spawn_process c1_success_oracle (some ⟨3, 5, 7⟩) =
      (.ret 42, some ⟨3, 5, 7⟩)
    ∧ (0 : Int) < 42
    ∧ (⟨3, 5, 7⟩ : PsError).pse_kind ≠ 0 := by decide

/-- C1 witness: when `pipe` fails with errno 24 the call returns 0 and a
`PS_ERROR_KIND_PIPE` error. -/
theorem c1_witness :
    ps_spawn_process c1_fail_oracle (some ⟨0, 0, 0⟩) =
      (.ret 0, some ⟨PS_ERROR_KIND_PIPE, 24, 0⟩)
    ∧ (∃ e, (some ⟨PS_ERROR_KIND_PIPE, 24, 0⟩ : Option PsError) = some e
        ∧ e.pse_kind ≠ 0) := by
  refine ⟨by decide, ?_⟩
  exact (c1_spawn_pid_error c1_fail_oracle ⟨0, 0, 0⟩ 0
    (some ⟨PS_ERROR_KIND_PIPE, 24, 0⟩) (by decide)).2 rfl

/-- C5: two executions of the parent-side loops at the inputs the claim
covers.  First: the child reports an error, the parent enters the cleanup
waitpid loop with the stale `err` equal to 0, and the first waitpid fails
with EINTR — the source takes the `ps_precondition(0)` branch and traps
instead of retrying.  Second: the pipe read fails with a non-EINTR errno
(EBADF) — the loop re-issues the read forever (the `goto error_cleanup`
above the EINTR test makes the stop-on-other-error path unreachable), so
the call diverges instead of failing with READ_FROM_CHILD. -/
theorem c5_eintr_handling_of_code :
    ps_spawn_process c5_trap_oracle (some ⟨0, 0, 0⟩) =
      (.trap, some ⟨PS_ERROR_KIND_EXECVE, 2, 0⟩)
    ∧ ps_spawn_process c5_read_oracle (some ⟨0, 0, 0⟩) =
      (.diverge, some ⟨0, 0, 0⟩) := by decide

theorem readLoopRun_mem (evs : List ReadEvent) (ce : PsError)
    (h : readLoopRun evs = some (some ce)) :
    ReadEvent.errStruct ce ∈ evs := by
  induction evs with
  | nil => simp [readLoopRun] at h
  | cons ev rest ih =>
    cases ev with
    | eof => simp [readLoopRun] at h
    | errStruct e =>
      simp [readLoopRun] at h
      simp [h]
    | rdfail en =>
      exact List.mem_cons_of_mem _ (ih h)

theorem waitLoop_none_cases (errVal : Int) (x : PsError)
    (hx : x.pse_kind ≠ 0) :
    ∀ wes : List WaitEvent,
      (waitLoop errVal none wes = .wdiverge
        ∧ waitLoop errVal (some x) wes = .wdiverge)
      ∨ (waitLoop errVal none wes = .wtrap
        ∧ waitLoop errVal (some x) wes = .wtrap)
      ∨ (∃ y, waitLoop errVal none wes = .done none
        ∧ waitLoop errVal (some x) wes = .done (some y)
        ∧ y.pse_kind ≠ 0) := by
  intro wes
  induction wes with
  | nil => exact Or.inl ⟨rfl, rfl⟩
  | cons ev rest ih =>
    cases ev with
    | wok => exact Or.inr (Or.inr ⟨x, rfl, rfl, hx⟩)
    | wfail en =>
      by_cases he : errVal = -1
      · by_cases hen : en = EINTR
        · simpa [waitLoop, he, hen] using ih
        · refine Or.inr (Or.inr ⟨⟨PS_ERROR_KIND_FAILED_CHILD_WAITPID, en, 0⟩,
            ?_, ?_, by simp [PS_ERROR_KIND_FAILED_CHILD_WAITPID]⟩)
          · simp [waitLoop, he, hen, writeOut]
          · simp [waitLoop, he, hen, writeOut]
      · exact Or.inr (Or.inl ⟨by simp [waitLoop, he], by simp [waitLoop, he]⟩)

theorem errorCleanup_compare (pid errVal : Int) (wes : List WaitEvent)
    (x : PsError) (hx : x.pse_kind ≠ 0) :
    (errorCleanup pid errVal wes none).1 =
      (errorCleanup pid errVal wes (some x)).1
    ∧ (errorCleanup pid errVal wes none).2 = none := by
  unfold errorCleanup
  split
  · rcases waitLoop_none_cases errVal x hx wes with
      ⟨h1, h2⟩ | ⟨h1, h2⟩ | ⟨y, h1, h2, hy⟩
    · rw [h1, h2]
      exact ⟨rfl, rfl⟩
    · rw [h1, h2]
      exact ⟨rfl, rfl⟩
    · rw [h1, h2]
      simp [finalCheck, hy]
  · simp [finalCheck, hx]

/-- C10: `ps_spawn_process` accepts a NULL `out_error`: no store ever
goes through the NULL pointer, the final nonzero-kind consistency check
is skipped when it is NULL, and — given that the child only ever writes
error structs with nonzero kind — the returned result is identical to a
run with a non-NULL `out_error`. -/
theorem c10_null_out_error (o : SpawnOracle) (e0 : PsError)
    (hwf : ∀ e, ReadEvent.errStruct e ∈ o.readEvents → e.pse_kind ≠ 0) :
    (ps_spawn_process o none).1 = (ps_spawn_process o (some e0)).1
    ∧ (ps_spawn_process o none).2 = none := by
  unfold ps_spawn_process
  split
  · exact errorCleanup_compare _ _ _ _ (by simp [PS_ERROR_KIND_PIPE])
  · split
    · exact errorCleanup_compare _ _ _ _ (by simp [PS_ERROR_KIND_FCNTL])
    · split
      · exact errorCleanup_compare _ _ _ _ (by simp [PS_ERROR_KIND_FCNTL])
      · split
        · exact errorCleanup_compare _ _ _ _
            (by simp [PS_ERROR_KIND_SIGMASK_THREAD])
        · split
          · exact errorCleanup_compare _ _ _ _
              (by simp [PS_ERROR_KIND_SIGMASK_THREAD])
          · split
            · split
              · exact ⟨rfl, rfl⟩
              · exact ⟨rfl, rfl⟩
              · rename_i ce hread
                exact errorCleanup_compare _ _ _ _
                  (hwf ce (readLoopRun_mem o.readEvents ce hread))
            · exact errorCleanup_compare _ _ _ _
                (by simp [PS_ERROR_KIND_FCNTL])

/-- C10 witness: on a failing-fork oracle whose read events are empty,
the NULL run and the non-NULL run return the same result, and the NULL
run never writes an error. -/
theorem c10_witness :
    (∀ e, ReadEvent.errStruct e ∈ (c10_oracle).readEvents → e.pse_kind ≠ 0)
    ∧ (ps_spawn_process c10_oracle none).1 =
        (ps_spawn_process c10_oracle (some ⟨0, 0, 0⟩)).1
    ∧ (ps_spawn_process c10_oracle none).2 = none := by
  refine ⟨by intro e he; simp [c10_oracle] at he, ?_, ?_⟩
  · exact (c10_null_out_error c10_oracle ⟨0, 0, 0⟩
      (by intro e he; simp [c10_oracle] at he)).1
  · exact (c10_null_out_error c10_oracle ⟨0, 0, 0⟩
      (by intro e he; simp [c10_oracle] at he)).2

/-- C9 witness: with current mask {3}, a failing `pthread_sigmask`
returning 22 makes the helper return nonzero, and signal 10 (SIGUSR1) is
in the constructed mask while SIGKILL (9) is not. -/
theorem c9_witness :
    ((22 : Nat) ≠ 0
      ∧ (block_everything_but_something_went_seriously_wrong_signals
          ({3} : Finset Nat) (some 22)).1 ≠ 0)
    ∧ (10 ∈ seriously_wrong_mask ↔
        (1 ≤ 10 ∧ 10 ≤ 64 ∧ 10 ≠ SIGABRT ∧ 10 ≠ SIGBUS ∧ 10 ≠ SIGFPE
          ∧ 10 ≠ SIGILL ∧ 10 ≠ SIGKILL ∧ 10 ≠ SIGSEGV ∧ 10 ≠ SIGSTOP
          ∧ 10 ≠ SIGSYS ∧ 10 ≠ SIGTRAP)) := by
  refine ⟨⟨by decide, (c9_block_helper {3}).2.2.1 22 (by decide)⟩, ?_⟩
  exact (c9_block_helper {3}).1 10

theorem find_filter_ne (t : List (Nat × FdEntry)) (fd fd' : Nat)
    (hne : fd' ≠ fd) :
    List.find? (fun p => p.1 == fd') (List.filter (fun p => p.1 != fd) t)
      = List.find? (fun p => p.1 == fd') t := by
  induction t with
  | nil => rfl
  | cons a rest ih =>
    by_cases ha : a.1 = fd
    · have h1 : (a.1 != fd) = false := by simp [ha]
      have h2 : (a.1 == fd') = false := by
        rw [ha]
        exact beq_eq_false_iff_ne.mpr (fun hc => hne hc.symm)
      simp only [List.filter_cons, h1, Bool.false_eq_true, if_false,
        List.find?, h2]
      exact ih
    · have h1 : (a.1 != fd) = true := by simp [ha]
      by_cases hf : a.1 = fd'
      · have h2 : (a.1 == fd') = true := by simp [hf]
        simp only [List.filter_cons, h1, if_true, List.find?, h2]
      · have h2 : (a.1 == fd') = false := by simp [hf]
        simp only [List.filter_cons, h1, if_true, List.find?, h2]
        exact ih

theorem fdLookup_fdSet (t : FdTable) (fd : Nat) (e : FdEntry) (fd' : Nat) :
    fdLookup (fdSet t fd e) fd' = if fd' = fd then some e else fdLookup t fd' := by
  by_cases h : fd' = fd
  · subst h
    have h2 : ((fd', e).1 == fd') = true := by simp
    simp [fdLookup, fdSet, List.find?, h2]
  · have h2 : ((fd, e).1 == fd') = false := by
      exact beq_eq_false_iff_ne.mpr (fun hc => h hc.symm)
    simp only [fdLookup, fdSet, List.find?, h2, if_neg h]
    rw [find_filter_ne t fd fd' h]

theorem fdLookup_fdClose (t : FdTable) (fd fd' : Nat) :
    fdLookup (fdClose t fd) fd' = if fd' = fd then none else fdLookup t fd' := by
  by_cases h : fd' = fd
  · subst h
    have : List.find? (fun p => p.1 == fd')
        (List.filter (fun p => p.1 != fd') t) = none := by
      rw [List.find?_eq_none]
      intro x hx
      have := List.of_mem_filter hx
      simp only [bne_iff_ne, ne_eq] at this
      simp [this]
    simp [fdLookup, fdClose, this, if_pos rfl]
  · simp only [fdLookup, fdClose, if_neg h]
    rw [find_filter_ne t fd fd' h]

theorem find?_key_mem (t : List (Nat × FdEntry)) (fd : Nat)
    (pr : Nat × FdEntry)
    (h : List.find? (fun p => p.1 == fd) t = some pr) :
    pr.1 = fd ∧ pr ∈ t := by
  induction t with
  | nil => simp [List.find?] at h
  | cons a rest ih =>
    rw [List.find?] at h
    cases ha : (a.1 == fd) with
    | true =>
      rw [ha] at h
      simp only [Option.some.injEq] at h
      subst h
      exact ⟨by simpa using ha, List.mem_cons_self a rest⟩
    | false =>
      rw [ha] at h
      obtain ⟨h1, h2⟩ := ih h
      exact ⟨h1, List.mem_cons_of_mem a h2⟩

theorem mem_le_maxFd (t : FdTable) (pr : Nat × FdEntry) (hmem : pr ∈ t) :
    pr.1 ≤ maxFd t := by
  induction t with
  | nil => exact absurd hmem (by simp)
  | cons a rest ih =>
    rcases List.mem_cons.mp hmem with hh | hh
    · subst hh
      simp [maxFd, List.foldr]
    · have := ih hh
      simp only [maxFd, List.foldr] at this ⊢
      omega

theorem fdLookup_le_maxFd (t : FdTable) (fd : Nat) (e : FdEntry)
    (h : fdLookup t fd = some e) : fd ≤ maxFd t := by
  unfold fdLookup at h
  cases hf : List.find? (fun p => p.1 == fd) t with
  | none => rw [hf] at h; exact absurd h (by simp)
  | some pr =>
    obtain ⟨hfd, hmem⟩ := find?_key_mem t fd pr hf
    have := mem_le_maxFd t pr hmem
    omega

theorem freeFrom_ge (t : FdTable) :
    ∀ fuel n, n ≤ freeFrom t fuel n := by
  intro fuel
  induction fuel with
  | zero => intro n; simp [freeFrom]
  | succ fuel ih =>
    intro n
    unfold freeFrom
    split
    · exact Nat.le_refl n
    · exact Nat.le_trans (Nat.le_succ n) (ih (n + 1))

theorem freeFrom_free (t : FdTable) :
    ∀ fuel n, maxFd t < n + fuel → fdLookup t (freeFrom t fuel n) = none := by
  intro fuel
  induction fuel with
  | zero =>
    intro n h
    cases hl : fdLookup t n with
    | none => simpa [freeFrom] using hl
    | some e =>
      have := fdLookup_le_maxFd t n e hl
      omega
  | succ fuel ih =>
    intro n h
    unfold freeFrom
    split
    · assumption
    · exact ih (n + 1) (by omega)

theorem fDupFdCloexec_spec (t : FdTable) (fd minfd d : Nat) (t1 : FdTable)
    (h : fDupFdCloexec t fd minfd = some (d, t1)) :
    ∃ e, fdLookup t fd = some e ∧ fdLookup t d = none ∧ minfd ≤ d
      ∧ t1 = fdSet t d ⟨e.ofd, true⟩ := by
  unfold fDupFdCloexec at h
  cases he : fdLookup t fd with
  | none => rw [he] at h; exact absurd h (by simp)
  | some e =>
    rw [he] at h
    simp only [Option.some.injEq, Prod.mk.injEq] at h
    obtain ⟨h1, h2⟩ := h
    subst h1
    exact ⟨e, rfl, freeFrom_free t (maxFd t + 1) minfd (by omega),
      freeFrom_ge t (maxFd t + 1) minfd, h2.symm⟩

theorem dup2_spec (t : FdTable) (src dst : Nat) (t1 : FdTable)
    (hne : src ≠ dst)
    (h : dup2 t src dst = some t1) :
    ∃ e, fdLookup t src = some e ∧ t1 = fdSet t dst ⟨e.ofd, false⟩ := by
  unfold dup2 at h
  cases he : fdLookup t src with
  | none => rw [he] at h; exact absurd h (by simp)
  | some e =>
    rw [he] at h
    simp only [if_neg hne, Option.some.injEq] at h
    exact ⟨e, rfl, h.symm⟩

theorem phaseA_preserves (N : Nat) (l : List ps_fd_setup) :
    ∀ (t : FdTable) (i : Nat) (tA : FdTable) (s : List (Option Nat)),
      phaseA N t l i = .ok (tA, s) →
      s.length = l.length
      ∧ (∀ fd e, fdLookup t fd = some e → fdLookup tA fd = some e)
      ∧ (∀ fd, fd < N → fdLookup tA fd = fdLookup t fd) := by
  induction l with
  | nil =>
    intro t i tA s h
    simp only [phaseA, Except.ok.injEq, Prod.mk.injEq] at h
    obtain ⟨h1, h2⟩ := h
    subst h1
    subst h2
    exact ⟨rfl, fun fd e he => he, fun fd _ => rfl⟩
  | cons ins rest ih =>
    intro t i tA s h
    cases ins with
    | mapFd p0 =>
      simp only [phaseA] at h
      cases hdup : fDupFdCloexec t p0 N with
      | none => rw [hdup] at h; simp at h
      | some pr =>
        obtain ⟨d, t1⟩ := pr
        rw [hdup] at h
        dsimp only at h
        cases hrec : phaseA N t1 rest (i + 1) with
        | error er => rw [hrec] at h; simp at h
        | ok pr2 =>
          obtain ⟨t2, s2⟩ := pr2
          rw [hrec] at h
          dsimp only at h
          simp only [Except.ok.injEq, Prod.mk.injEq] at h
          obtain ⟨h1, h2⟩ := h
          subst h1
          subst h2
          obtain ⟨ihl, ihp, ihlow⟩ := ih t1 (i + 1) t2 s2 hrec
          obtain ⟨e0, he0, hdnone, hNd, ht1⟩ := fDupFdCloexec_spec t p0 N d t1 hdup
          refine ⟨by simp [ihl], ?_, ?_⟩
          · intro fd e he
            apply ihp
            rw [ht1, fdLookup_fdSet]
            have hfd : fd ≠ d := by
              rintro rfl
              exact Option.noConfusion (he.symm.trans hdnone)
            rw [if_neg hfd]
            exact he
          · intro fd hfd
            rw [ihlow fd hfd, ht1, fdLookup_fdSet,
              if_neg (by omega : fd ≠ d)]
    | closeFd =>
      simp only [phaseA] at h
      cases hrec : phaseA N t rest (i + 1) with
      | error er => rw [hrec] at h; simp at h
      | ok pr2 =>
        obtain ⟨t2, s2⟩ := pr2
        rw [hrec] at h
        dsimp only at h
        simp only [Except.ok.injEq, Prod.mk.injEq] at h
        obtain ⟨h1, h2⟩ := h
        subst h1
        subst h2
        obtain ⟨ihl, ihp, ihlow⟩ := ih t (i + 1) t2 s2 hrec
        exact ⟨by simp [ihl], ihp, ihlow⟩

theorem phaseA_scratch (N : Nat) (l : List ps_fd_setup) :
    ∀ (t : FdTable) (i : Nat) (tA : FdTable) (s : List (Option Nat)),
      (∀ p, ps_fd_setup.mapFd p ∈ l → (fdLookup t p).isSome = true) →
      phaseA N t l i = .ok (tA, s) →
      (∀ j : Nat, l[j]? = some ps_fd_setup.closeFd → s[j]? = some none)
      ∧ (∀ (j : Nat) (p : Nat), l[j]? = some (ps_fd_setup.mapFd p) →
          ∃ d e, s[j]? = some (some d) ∧ N ≤ d ∧ fdLookup t p = some e
            ∧ fdLookup tA d = some ⟨e.ofd, true⟩) := by
  induction l with
  | nil =>
    intro t i tA s _ h
    simp only [phaseA, Except.ok.injEq, Prod.mk.injEq] at h
    obtain ⟨h1, h2⟩ := h
    subst h1
    subst h2
    exact ⟨fun j hj => by simp at hj, fun j p hj => by simp at hj⟩
  | cons ins rest ih =>
    intro t i tA s hOpen h
    cases ins with
    | mapFd p0 =>
      simp only [phaseA] at h
      cases hdup : fDupFdCloexec t p0 N with
      | none => rw [hdup] at h; simp at h
      | some pr =>
        obtain ⟨d, t1⟩ := pr
        rw [hdup] at h
        dsimp only at h
        cases hrec : phaseA N t1 rest (i + 1) with
        | error er => rw [hrec] at h; simp at h
        | ok pr2 =>
          obtain ⟨t2, s2⟩ := pr2
          rw [hrec] at h
          dsimp only at h
          simp only [Except.ok.injEq, Prod.mk.injEq] at h
          obtain ⟨h1, h2⟩ := h
          subst h1
          subst h2
          obtain ⟨e0, he0, hdnone, hNd, ht1⟩ :=
            fDupFdCloexec_spec t p0 N d t1 hdup
          have hOpen1 : ∀ p, ps_fd_setup.mapFd p ∈ rest →
              (fdLookup t1 p).isSome = true := by
            intro p hp
            have hps := hOpen p (List.mem_cons_of_mem _ hp)
            obtain ⟨ep, hep⟩ := Option.isSome_iff_exists.mp hps
            have hpne : p ≠ d := by
              rintro rfl
              exact Option.noConfusion (hep.symm.trans hdnone)
            rw [ht1, fdLookup_fdSet, if_neg hpne, hep]
            rfl
          obtain ⟨ihc, ihm⟩ := ih t1 (i + 1) t2 s2 hOpen1 hrec
          obtain ⟨_, hpres2, _⟩ := phaseA_preserves N rest t1 (i + 1) t2 s2 hrec
          constructor
          · intro j hj
            cases j with
            | zero => simp at hj
            | succ j =>
              have hj' : rest[j]? = some ps_fd_setup.closeFd := by
                simpa using hj
              simpa using ihc j hj'
          · intro j p hj
            cases j with
            | zero =>
              have hp : p0 = p := by simpa using hj
              subst hp
              refine ⟨d, e0, by simp, hNd, he0, ?_⟩
              apply hpres2
              rw [ht1, fdLookup_fdSet, if_pos rfl]
            | succ j =>
              have hj' : rest[j]? = some (ps_fd_setup.mapFd p) := by
                simpa using hj
              obtain ⟨d2, e2, hs2, hNd2, ht1p, ht2p⟩ := ihm j p hj'
              have hps := hOpen p (List.mem_cons_of_mem _
                (List.getElem?_mem hj'))
              obtain ⟨ep, hep⟩ := Option.isSome_iff_exists.mp hps
              have hpne : p ≠ d := by
                rintro rfl
                exact Option.noConfusion (hep.symm.trans hdnone)
              rw [ht1, fdLookup_fdSet, if_neg hpne] at ht1p
              exact ⟨d2, e2, by simpa using hs2, hNd2, ht1p, ht2p⟩
    | closeFd =>
      simp only [phaseA] at h
      cases hrec : phaseA N t rest (i + 1) with
      | error er => rw [hrec] at h; simp at h
      | ok pr2 =>
        obtain ⟨t2, s2⟩ := pr2
        rw [hrec] at h
        dsimp only at h
        simp only [Except.ok.injEq, Prod.mk.injEq] at h
        obtain ⟨h1, h2⟩ := h
        subst h1
        subst h2
        have hOpen1 : ∀ p, ps_fd_setup.mapFd p ∈ rest →
            (fdLookup t p).isSome = true :=
          fun p hp => hOpen p (List.mem_cons_of_mem _ hp)
        obtain ⟨ihc, ihm⟩ := ih t (i + 1) t2 s2 hOpen1 hrec
        constructor
        · intro j hj
          cases j with
          | zero => simp
          | succ j =>
            have hj' : rest[j]? = some ps_fd_setup.closeFd := by
              simpa using hj
            simpa using ihc j hj'
        · intro j p hj
          cases j with
          | zero => simp at hj
          | succ j =>
            have hj' : rest[j]? = some (ps_fd_setup.mapFd p) := by
              simpa using hj
            obtain ⟨d2, e2, hs2, hNd2, htp, ht2p⟩ := ihm j p hj'
            exact ⟨d2, e2, by simpa using hs2, hNd2, htp, ht2p⟩

theorem phaseB_sound (l : List ps_fd_setup) :
    ∀ (s : List (Option Nat)) (u : FdTable) (i : Nat) (tB : FdTable),
      phaseB u l s i = .ok tB →
      (∀ fd : Nat, (fd < i ∨ i + l.length ≤ fd) →
        fdLookup tB fd = fdLookup u fd)
      ∧ (∀ j : Nat, l[j]? = some ps_fd_setup.closeFd →
          fdLookup tB (i + j) = none)
      ∧ (∀ (j : Nat) (p : Nat), l[j]? = some (ps_fd_setup.mapFd p) →
          ∃ d e, s[j]? = some (some d) ∧ i + j < d ∧ fdLookup u d = some e
            ∧ fdLookup tB (i + j) = some ⟨e.ofd, false⟩) := by
  induction l with
  | nil =>
    intro s u i tB h
    cases s with
    | nil =>
      simp only [phaseB, Except.ok.injEq] at h
      subst h
      exact ⟨fun fd _ => rfl, fun j hj => by simp at hj,
        fun j p hj => by simp at hj⟩
    | cons so srest => simp [phaseB] at h
  | cons ins rest ih =>
    intro s u i tB h
    cases ins with
    | mapFd p0 =>
      cases s with
      | nil => simp [phaseB] at h
      | cons so srest =>
        cases so with
        | none => simp [phaseB] at h
        | some d =>
          simp only [phaseB] at h
          split at h
          case isFalse => simp at h
          case isTrue hi =>
            cases hd2 : dup2 u d i with
            | none => rw [hd2] at h; simp at h
            | some u1 =>
              rw [hd2] at h
              dsimp only at h
              obtain ⟨e0, he0, hu1⟩ := dup2_spec u d i u1 (by omega) hd2
              obtain ⟨ih1, ih2, ih3⟩ := ih srest u1 (i + 1) tB h
              refine ⟨?_, ?_, ?_⟩
              · intro fd hfd
                simp only [List.length_cons] at hfd
                have hne : fd ≠ i := by omega
                rw [ih1 fd (by omega), hu1, fdLookup_fdSet, if_neg hne]
              · intro j hj
                cases j with
                | zero => simp at hj
                | succ j =>
                  have hj' : rest[j]? = some ps_fd_setup.closeFd := by
                    simpa using hj
                  have harith : i + (j + 1) = (i + 1) + j := by omega
                  rw [harith]
                  exact ih2 j hj'
              · intro j p hj
                cases j with
                | zero =>
                  have hp : p0 = p := by simpa using hj
                  subst hp
                  refine ⟨d, e0, by simp, by omega, ?_, ?_⟩
                  · simpa using he0
                  · have hlk : fdLookup tB (i + 0) = fdLookup u1 (i + 0) :=
                      ih1 (i + 0) (by omega)
                    rw [hlk, hu1, fdLookup_fdSet]
                    simp
                | succ j =>
                  have hj' : rest[j]? = some (ps_fd_setup.mapFd p) := by
                    simpa using hj
                  obtain ⟨d2, e2, hs2, hlt2, hu1p, htBp⟩ := ih3 j p hj'
                  have hdne : d2 ≠ i := by omega
                  rw [hu1, fdLookup_fdSet, if_neg hdne] at hu1p
                  have harith : i + (j + 1) = (i + 1) + j := by omega
                  exact ⟨d2, e2, by simpa using hs2, by omega, hu1p,
                    by rw [harith]; exact htBp⟩
    | closeFd =>
      cases s with
      | nil => simp [phaseB] at h
      | cons so srest =>
        cases so with
        | some d => simp [phaseB] at h
        | none =>
          simp only [phaseB] at h
          obtain ⟨ih1, ih2, ih3⟩ := ih srest (fdClose u i) (i + 1) tB h
          refine ⟨?_, ?_, ?_⟩
          · intro fd hfd
            simp only [List.length_cons] at hfd
            have hne : fd ≠ i := by omega
            rw [ih1 fd (by omega), fdLookup_fdClose, if_neg hne]
          · intro j hj
            cases j with
            | zero =>
              have hlk : fdLookup tB (i + 0) = fdLookup (fdClose u i) (i + 0) :=
                ih1 (i + 0) (by omega)
              rw [hlk, fdLookup_fdClose]
              simp
            | succ j =>
              have hj' : rest[j]? = some ps_fd_setup.closeFd := by
                simpa using hj
              have harith : i + (j + 1) = (i + 1) + j := by omega
              rw [harith]
              exact ih2 j hj'
          · intro j p hj
            cases j with
            | zero => simp at hj
            | succ j =>
              have hj' : rest[j]? = some (ps_fd_setup.mapFd p) := by
                simpa using hj
              obtain ⟨d2, e2, hs2, hlt2, hup, htBp⟩ := ih3 j p hj'
              have hdne : d2 ≠ i := by omega
              rw [fdLookup_fdClose, if_neg hdne] at hup
              have harith : i + (j + 1) = (i + 1) + j := by omega
              exact ⟨d2, e2, by simpa using hs2, by omega, hup,
                by rw [harith]; exact htBp⟩

/-- C2: after a successful run of the two-phase remap, the child fd table
matches the instructions exactly on [0, N): a `mapFd parent_fd` slot at
index j refers to the same open file description that `parent_fd` had at
call time (with close-on-exec cleared by dup2, so it survives exec), and
a `closeFd` slot at index j is closed.  The hypothesis that every
referenced `parent_fd` is open at call time makes "the open file
description of parent_fd at call time" denote. -/
theorem c2_fd_remap (instrs : List ps_fd_setup) (t0 tB : FdTable)
    (hOpen : (instrs.all fun ins =>
      match ins with
      | .mapFd p => (fdLookup t0 p).isSome
      | .closeFd => true) = true)
    (h : setupFds t0 instrs = .ok tB) :
    ∀ j : Nat,
      (instrs[j]? = some ps_fd_setup.closeFd → fdLookup tB j = none)
      ∧ (∀ p : Nat, instrs[j]? = some (ps_fd_setup.mapFd p) →
          ∃ e, fdLookup t0 p = some e
            ∧ fdLookup tB j = some ⟨e.ofd, false⟩) := by
  unfold setupFds at h
  cases hA : phaseA instrs.length t0 instrs 0 with
  | error er => rw [hA] at h; simp at h
  | ok pr =>
    obtain ⟨tA, s⟩ := pr
    rw [hA] at h
    dsimp only at h
    have hOpen2 : ∀ p, ps_fd_setup.mapFd p ∈ instrs →
        (fdLookup t0 p).isSome = true := by
      intro p hp
      have := List.all_eq_true.mp hOpen _ hp
      simpa using this
    obtain ⟨hAclose, hAmap⟩ :=
      phaseA_scratch instrs.length instrs t0 0 tA s hOpen2 hA
    obtain ⟨hBout, hBclose, hBmap⟩ := phaseB_sound instrs s tA 0 tB h
    intro j
    constructor
    · intro hj
      have := hBclose j hj
      simpa using this
    · intro p hj
      obtain ⟨d1, e1, hs1, hd1, hu1, ht1⟩ := hBmap j p hj
      obtain ⟨d2, e2, hs2, hNd2, ht0, htA⟩ := hAmap j p hj
      rw [hs1] at hs2
      have hdd : d1 = d2 := by simpa using hs2
      subst hdd
      rw [htA] at hu1
      have he12 : (⟨e2.ofd, true⟩ : FdEntry) = e1 := by simpa using hu1
      subst he12
      refine ⟨e2, ht0, ?_⟩
      simpa using ht1

/-- C2 witness: the claim's permutation scenario.  With fds 0, 1, 2 open
and instructions [map 0, map 2, map 1] (swap fds 1 and 2), the remap
succeeds and child fd 1 carries the open file description 102 that
parent fd 2 had at call time. -/
theorem c2_witness :
    ((swapInstrs.all fun ins =>
      match ins with
      | .mapFd p => (fdLookup swapTable p).isSome
      | .closeFd => true) = true)
    ∧ setupFds swapTable swapInstrs =
        .ok [(2, ⟨101, false⟩), (1, ⟨102, false⟩), (0, ⟨100, false⟩),
          (5, ⟨101, true⟩), (4, ⟨102, true⟩), (3, ⟨100, true⟩)]
    ∧ (∃ e, fdLookup swapTable 2 = some e
        ∧ fdLookup [(2, (⟨101, false⟩ : FdEntry)), (1, ⟨102, false⟩),
            (0, ⟨100, false⟩), (5, ⟨101, true⟩), (4, ⟨102, true⟩),
            (3, ⟨100, true⟩)] 1 = some ⟨e.ofd, false⟩) := by
  refine ⟨by decide, by rfl, ?_⟩
  exact (c2_fd_remap swapInstrs swapTable
    [(2, ⟨101, false⟩), (1, ⟨102, false⟩), (0, ⟨100, false⟩),
      (5, ⟨101, true⟩), (4, ⟨102, true⟩), (3, ⟨100, true⟩)]
    (by decide) (by rfl) 1).2 2 (by decide)

/-- C4 counterexample: the error pipe's write end sits at fd 1 with
close-on-exec set, and the caller supplies N = 2 instructions
[closeFd, closeFd].  The child's low-fd setup succeeds and CLOSES the
pipe: nothing re-duplicates the error pipe above N, contrary to the
claim. -/
theorem c4_counterexample :
    setupFds pipeTable [.closeFd, .closeFd] = .ok []
    ∧ fdLookup pipeTable 1 = some ⟨201, true⟩
    ∧ fdLookup ([] : FdTable) 1 = none :=
  ⟨by rfl, by decide, by decide⟩

/-- C4 amended: the fd-setup phases write only to free descriptors (phase
A) and to descriptors below N (phase B), so whenever the error pipe's
descriptor is ≥ N its entry — including its close-on-exec flag, which the
parent set — survives the low-fd setup untouched, and on a successful
exec the flag closes it so the parent sees EOF.  The protection holds
only because of this arithmetic: the implementation does not re-duplicate
the pipe, and a pipe descriptor below N is clobbered
(see the counterexample). -/
theorem c4_pipe_preserved (t0 : FdTable) (instrs : List ps_fd_setup)
    (tB : FdTable) (ep : Nat) (e : FdEntry)
    (hep : instrs.length ≤ ep)
    (he : fdLookup t0 ep = some e)
    (h : setupFds t0 instrs = .ok tB) :
    fdLookup tB ep = some e := by
  unfold setupFds at h
  cases hA : phaseA instrs.length t0 instrs 0 with
  | error er => rw [hA] at h; simp at h
  | ok pr =>
    obtain ⟨tA, s⟩ := pr
    rw [hA] at h
    dsimp only at h
    obtain ⟨_, hpres, _⟩ := phaseA_preserves instrs.length instrs t0 0 tA s hA
    obtain ⟨hBout, _, _⟩ := phaseB_sound instrs s tA 0 tB h
    rw [hBout ep (by omega)]
    exact hpres ep e he

/-- C4 witness: the error pipe at fd 3 (close-on-exec, open file
description 7) with a single closeFd instruction (N = 1 ≤ 3): the setup
leaves the pipe entry intact. -/
theorem c4_witness :
    (([ps_fd_setup.closeFd].length ≤ 3)
      ∧ fdLookup [(3, (⟨7, true⟩ : FdEntry))] 3 = some ⟨7, true⟩
      ∧ setupFds [(3, ⟨7, true⟩)] [.closeFd] = .ok [(3, ⟨7, true⟩)])
    ∧ fdLookup [(3, (⟨7, true⟩ : FdEntry))] 3 = some ⟨7, true⟩ := by
  refine ⟨⟨by decide, by decide, by rfl⟩, ?_⟩
  exact c4_pipe_preserved [(3, ⟨7, true⟩)] [.closeFd] [(3, ⟨7, true⟩)] 3
    ⟨7, true⟩ (by decide) (by decide) (by rfl)
